import Mathlib

/-!
Verification of the mari-chat2 repository (a Streamlit chat application).

The Python sources are shallowly embedded: strings are `List Char` (with
`String` wrappers at the interfaces), dictionaries are association lists,
session state is an explicit structure, and fallible Python calls return
`Except PyErr`.  Every definition is translated from the corresponding
Python function; modelled stand-ins for modules that are not part of the
repository snapshot are marked in their doc comments.
-/

namespace MariChat

/-! ## Python string primitives -/

/-- Python whitespace characters (the ASCII set recognised both by
str.strip and by the regex class backslash-s). -/
def isPySpace (c : Char) : Bool :=
  c == ' ' || c == '\t' || c == '\n' || c == '\r' ||
  c == Char.ofNat 11 || c == Char.ofNat 12

/-- Python str.strip(): remove leading and trailing whitespace. -/
def pyStrip (s : List Char) : List Char :=
  ((s.dropWhile isPySpace).reverse.dropWhile isPySpace).reverse

/-- Does the second list start with the first one?  (Model of matching a
literal at the current position.) -/
def startsWithSeq : List Char → List Char → Bool
  | [], _ => true
  | _ :: _, [] => false
  | a :: as, b :: bs => a == b && startsWithSeq as bs

/-- Python substring containment (the in operator on str). -/
def containsSeq (needle : List Char) : List Char → Bool
  | [] => startsWithSeq needle []
  | c :: rest => startsWithSeq needle (c :: rest) || containsSeq needle rest

/-- Python sep.join(parts). -/
def joinSep (sep : List Char) : List (List Char) → List Char
  | [] => []
  | [x] => x
  | x :: xs => x ++ sep ++ joinSep sep xs

/-- Python str(n) for a natural number (decimal digits). -/
def natStr (n : Nat) : String := Nat.repr n

/-! ## ChatInterface._detect_hidden_content
(src/components_chat_interface.py, lines 103-129)

The method runs re.search with the pattern backslash-bracket HIDDEN colon
lazy-group close-bracket greedy-group.  The regex semantics for this one
pattern are embedded directly: at a match position the literal marker must
occur; the lazy first group is the run of non-newline characters up to the
first closing bracket (failing if a newline intervenes); the greedy second
group is the rest of the line.  re.search yields the leftmost position at
which this succeeds. -/

/-- The literal marker prefix of the hidden-content pattern. -/
def hiddenMarker : List Char := "[HIDDEN:".toList

/-- Lazy group 1: shortest run of non-newline characters up to a closing
bracket.  Returns the group and the remainder after the bracket. -/
def grabHidden : List Char → Option (List Char × List Char)
  | [] => none
  | c :: cs =>
    if c = ']' then some ([], cs)
    else if c = '\n' then none
    else (grabHidden cs).map (fun p => (c :: p.1, p.2))

/-- Try to match the hidden-content pattern at the current position. -/
def matchHiddenAt (s : List Char) : Option (List Char × List Char) :=
  if startsWithSeq hiddenMarker s then
    match grabHidden (s.drop hiddenMarker.length) with
    | none => none
    | some (g1, rest) => some (g1, rest.takeWhile (fun c => c ≠ '\n'))
  else none

/-- re.search for the hidden-content pattern: leftmost match. -/
def searchHidden : List Char → Option (List Char × List Char)
  | [] => none
  | s@(_ :: rest) =>
    match matchHiddenAt s with
    | some r => some r
    | none => searchHidden rest

/-- ChatInterface._detect_hidden_content: returns
(has hidden content, visible content, hidden content). -/
def detectHiddenContent (content : String) : Bool × String × String :=
  match searchHidden content.toList with
  | some (g1, g2) => (true, ⟨pyStrip g2⟩, ⟨pyStrip g1⟩)
  | none => (false, content, "")

/-- ChatInterface.create_hidden_content_message
(src/components_chat_interface.py, lines 426-437). -/
def createHiddenContentMessage (visibleContent hiddenContent : String) : String :=
  ⟨hiddenMarker ++ hiddenContent.toList ++ ']' :: visibleContent.toList⟩

/-! ## ChatInterface.sanitize_message
(src/components_chat_interface.py, lines 356-381) -/

/-- The two sequential str.replace calls escaping angle brackets.  The
first replacement text contains no greater-than sign, so the sequential
composition acts like a single character-wise pass. -/
def replaceAngle : List Char → List Char
  | [] => []
  | c :: cs =>
    (if c = '<' then ['&', 'l', 't', ';']
     else if c = '>' then ['&', 'g', 't', ';'] else [c])
      ++ replaceAngle cs

/-- re.sub of one-or-more whitespace with a single space: every maximal
whitespace run becomes one space character. -/
def collapseWS : List Char → List Char
  | [] => []
  | c :: cs =>
    if isPySpace c then ' ' :: collapseWS (cs.dropWhile isPySpace)
    else c :: collapseWS cs
  termination_by s => s.length
  decreasing_by
    · simp only [List.length_cons]
      exact Nat.lt_succ_of_le (List.dropWhile_sublist isPySpace).length_le
    · simp only [List.length_cons]
      exact Nat.lt_succ_self _

/-- ChatInterface.sanitize_message: strip, escape angle brackets, collapse
whitespace runs. -/
def sanitizeMessage (message : String) : String :=
  ⟨collapseWS (replaceAngle (pyStrip message.toList))⟩

/-! ## Chat messages

A chat message dictionary as used by main_app.py and the components:
role, content, the is-initial flag and the optional explicit message id. -/

structure PyMessage where
  role : String
  content : String
  isInitial : Bool
  messageId : Option String
deriving DecidableEq, Repr

/-- Python substring containment on String values. -/
def pyIn (needle haystack : String) : Bool :=
  containsSeq needle.toList haystack.toList

/-! ## MemoryManager (src/core_memory_manager.py)

The manager's mutable state is its important_words_cache, passed
explicitly.  extract_important_words is rule-based text mining whose
output feeds the cache; the claims quantify over it, so it is a function
parameter here and every theorem about compress_history holds for all
possible extraction results. -/

/-- MemoryManager.should_compress_history (lines 142-154): true iff the
count of user-role messages reaches the threshold. -/
def shouldCompressHistory (historyThreshold : Nat) (messages : List PyMessage) : Bool :=
  historyThreshold ≤ (messages.filter (fun m => m.role == "user")).length

/-- The default history_threshold: MemoryManager(history_threshold=10) in
main_app.py line 358. -/
def defaultHistoryThreshold : Nat := 10

/-- MemoryManager.compress_history (lines 156-193).  Returns the kept
messages and the new important_words_cache.  list(set(...)) has
unspecified iteration order in Python; it is modelled as first-occurrence
deduplication, which agrees on membership and size. -/
def compressHistory (historyThreshold : Nat)
    (extractImportantWords : List PyMessage → List String)
    (messages : List PyMessage) (importantWordsCache : List String) :
    List PyMessage × List String :=
  if !shouldCompressHistory historyThreshold messages then
    (messages, importantWordsCache)
  else
    let keepRecent := 4
    let oldMessages :=
      if messages.length > keepRecent then messages.take (messages.length - keepRecent)
      else []
    let recentMessages :=
      if messages.length > keepRecent then messages.drop (messages.length - keepRecent)
      else messages
    if oldMessages ≠ [] then
      let newKeywords := extractImportantWords oldMessages
      let allKeywords := (importantWordsCache ++ newKeywords).dedup
      (recentMessages, allKeywords.take 20)
    else
      (recentMessages, importantWordsCache)

/-- MemoryManager.get_memory_summary (lines 195-206). -/
def getMemorySummary (importantWordsCache : List String) : String :=
  if importantWordsCache = [] then ""
  else "過去の会話で言及された重要な要素: " ++ ⟨joinSep "、".toList (importantWordsCache.map (·.toList))⟩

/-! ## SceneManager (src/core_scene_manager.py) -/

/-- The keys of SceneManager.theme_urls (lines 18-26): the 7-entry scene
catalog. -/
def themeKeys : List String :=
  ["default", "room_night", "beach_sunset", "festival_night",
   "shrine_day", "cafe_afternoon", "aquarium_night"]

/-- The keyword list of SceneManager._has_location_keywords (lines 97-114). -/
def locationKeywords : List String :=
  ["ビーチ", "海", "砂浜", "海岸", "海辺", "浜辺",
   "神社", "お寺", "寺院", "鳥居", "境内",
   "カフェ", "喫茶店", "店", "レストラン",
   "祭り", "花火", "屋台", "縁日",
   "部屋", "家", "室内", "寝室", "リビング",
   "水族館", "アクアリウム",
   "行く", "行こう", "向かう", "着いた", "到着", "移動", "出かける", "来た", "いる", "にいる",
   "夕日", "夕焼け", "サンセット", "波", "潮風",
   "お参り", "参拝", "祈り", "おみくじ",
   "コーヒー", "お茶", "ラテ", "エスプレッソ",
   "浴衣", "夜店", "お祭り", "フェスティバル",
   "ベッド", "夜", "屋内", "家の中",
   "魚", "水槽", "イルカ", "クラゲ", "海の生き物"]

/-- SceneManager._has_location_keywords (lines 87-121): substring check
against the keyword list with early exit, i.e. an any-fold. -/
def hasLocationKeywords (text : String) : Bool :=
  locationKeywords.any (fun k => pyIn k text)

/-- Python l[-n:]: the most recent n elements. -/
def lastN (n : Nat) (l : List α) : List α :=
  if l.length > n then l.drop (l.length - n) else l

/-- The history text rendered by detect_scene_change (lines 75-77). -/
def renderHistoryText (recentHistory : List (String × String)) : String :=
  ⟨joinSep "\n".toList
    (recentHistory.map (fun p => ("ユーザー: " ++ p.1 ++ "\n麻理: " ++ p.2).toList))⟩

/-- The local stage of SceneManager.detect_scene_change (lines 52-85):
everything before the external Groq call.  Returns some history_text when
the external stage would be invoked with that text, none when the method
returns without any external call (empty history, missing client, or no
location keyword in the rendered last-5-turn text). -/
def detectSceneChangePre (history : List (String × String)) (hasClient : Bool) :
    Option String :=
  if history.isEmpty then none
  else if !hasClient then none
  else
    let recentHistory := lastN 5 history
    let historyText := renderHistoryText recentHistory
    if !hasLocationKeywords historyText then none
    else some historyText

/-- A Python value read out of a parsed JSON object, as far as the scene
validation inspects it: either a string or something that fails the
isinstance(-, str) check. -/
inductive PyJson where
  | str (s : String)
  | nonStr
deriving DecidableEq, Repr

/-- What the external Groq exchange in _detect_scene_with_groq can
produce: failure covers an empty response, a JSON parse error and any
other exception (all caught and turned into None); ok carries the parsed
object's scene entry, none when the key is absent. -/
inductive GroqOutcome where
  | failure
  | ok (sceneField : Option PyJson)
deriving DecidableEq, Repr

/-- The result-validation tail of SceneManager._detect_scene_with_groq
(lines 190-223): accept only a string scene value that is not the literal
none, is a known catalog key, and differs from the current theme. -/
def detectSceneWithGroq (outcome : GroqOutcome) (currentTheme : String) :
    Option String :=
  match outcome with
  | .failure => none
  | .ok sceneField =>
    match sceneField.getD (.str "none") with
    | .nonStr => none
    | .str sceneValue =>
      if sceneValue ≠ "none" ∧ sceneValue ∈ themeKeys ∧ sceneValue ≠ currentTheme then
        some sceneValue
      else none

/-- SceneManager.detect_scene_change (lines 52-85), with the external
exchange abstracted as an oracle from the sent history text to its
outcome. -/
def detectSceneChange (oracle : String → GroqOutcome)
    (history : List (String × String)) (hasClient : Bool)
    (currentTheme : String) : Option String :=
  match detectSceneChangePre history hasClient with
  | none => none
  | some historyText => detectSceneWithGroq (oracle historyText) currentTheme

/-- SceneManager.get_scene_transition_message (lines 258-282). -/
def sceneThemeNames : List (String × String) :=
  [("default", "デフォルトの部屋"), ("room_night", "夜の部屋"),
   ("beach_sunset", "夕日のビーチ"), ("festival_night", "夜祭り"),
   ("shrine_day", "昼間の神社"), ("cafe_afternoon", "午後のカフェ"),
   ("aquarium_night", "夜の水族館")]

/-- Python dict.get(key, default) on an association list. -/
def dictGetD (m : List (String × α)) (k : String) (d : α) : α :=
  match m.find? (fun p => p.1 == k) with
  | some p => p.2
  | none => d

def getSceneTransitionMessage (oldTheme newTheme : String) : String :=
  let oldName := dictGetD sceneThemeNames oldTheme oldTheme
  let newName := dictGetD sceneThemeNames newTheme newTheme
  "シーンが「" ++ oldName ++ "」から「" ++ newName ++ "」に変更されました"

/-! ## DogAssistant (src/components_dog_assistant.py) and the flip-state
map read by ChatInterface.render_chat_history -/

/-- Python dict assignment on an association list. -/
def dictSet (m : List (String × Bool)) (k : String) (v : Bool) : List (String × Bool) :=
  match m with
  | [] => [(k, v)]
  | (k', v') :: rest => if k' == k then (k, v) :: rest else (k', v') :: dictSet rest k v

/-- The session-state slice touched by the dog button and read back when
rendering: the global reveal-all flag, the per-message flip-state map and
the chat message list. -/
structure DogSessionState where
  showAllHidden : Bool
  messageFlipStates : List (String × Bool)
  chatMessages : List PyMessage
deriving Repr

/-- The key the dog click handler writes for the message at index i
(components_dog_assistant.py line 336). -/
def flipWriteKey (i : Nat) : String := "msg_" ++ natStr i

/-- The key render_chat_history reads for the message at index i
(components_chat_interface.py line 46): the message's own message_id when
present, else the positional fallback. -/
def flipRenderKey (i : Nat) (m : PyMessage) : String :=
  m.messageId.getD (flipWriteKey i)

/-- The flip-state write loop of handle_dog_button_click (lines 333-337):
for every assistant message at index i, set the entry at key msg_i. -/
def writeFlipStates (msgs : List PyMessage) (flipStates : List (String × Bool))
    (newState : Bool) : List (String × Bool) :=
  msgs.enum.foldl
    (fun acc p =>
      if p.2.role == "assistant" then dictSet acc (flipWriteKey p.1) newState else acc)
    flipStates

/-- DogAssistant.handle_dog_button_click (lines 313-354): toggle the
reveal-all flag and, since the toggled value always differs from the
current one, write the new boolean into the per-message flip map for every
assistant message. -/
def handleDogButtonClick (s : DogSessionState) : DogSessionState :=
  let currentState := s.showAllHidden
  let newState := !currentState
  if currentState ≠ newState then
    { s with
      showAllHidden := newState
      messageFlipStates := writeFlipStates s.chatMessages s.messageFlipStates newState }
  else s

/-- The flip state render_chat_history uses for the message at index i
(components_chat_interface.py lines 46 and 84):
message_flip_states.get(message_id, False). -/
def renderedFlipState (s : DogSessionState) (i : Nat) (m : PyMessage) : Bool :=
  dictGetD s.messageFlipStates (flipRenderKey i m) false

/-! ## main_app.py: history construction and message processing -/

/-- The non-initial message filter (main_app.py lines 1481-1482). -/
def nonInitialMessages (msgs : List PyMessage) : List PyMessage :=
  msgs.filter (fun m => !m.isInitial)

/-- The user-message contents collected in order (lines 1489-1491). -/
def userContents (msgs : List PyMessage) : List String :=
  msgs.filterMap (fun m => if m.role == "user" then some m.content else none)

/-- The assistant-message contents collected in order (lines 1492-1493). -/
def assistantContents (msgs : List PyMessage) : List String :=
  msgs.filterMap (fun m => if m.role == "assistant" then some m.content else none)

/-- The conversation-pair history built by process_chat_message (lines
1478-1499): drop initial messages, pair the i-th user message with the
i-th assistant message, keep at most the first 5 pairs. -/
def buildHistory (msgs : List PyMessage) : List (String × String) :=
  let ni := nonInitialMessages msgs
  ((userContents ni).zip (assistantContents ni)).take 5

/-- The internal truncation of DialogueGenerator.generate_dialogue
(src/core_dialogue.py line 159): history[-5:]. -/
def recentHistory (history : List (String × String)) : List (String × String) :=
  lastN 5 history

/-- DialogueGenerator.call_llm (src/core_dialogue.py lines 104-145) in
demo mode (self.model is None because GEMINI_API_KEY is unset): the fixed
responses, returned without any network activity. -/
def callLlmDemo (isJsonOutput : Bool) : String :=
  if isJsonOutput then "\x7b\"scene\": \"none\"\x7d"
  else "は？何それ。あたしに話しかけてるの？"

/-- The fixed demo deflection line of call_llm (core_dialogue.py line 110). -/
def demoDeflectionLine : String := "は？何それ。あたしに話しかけてるの？"

/-- DialogueGenerator.generate_dialogue (core_dialogue.py lines 147-186)
with no Gemini model configured: builds the prompt from the last 5 history
turns and delegates to call_llm, which answers with the demo line. -/
def generateDialogueDemo (history : List (String × String)) (message : String)
    (affection : Int) (stageName : String) (theme : String)
    (instruction : Option String) (memorySummary : String) : String :=
  let recent := recentHistory history
  let historyParts := recent.filterMap (fun p =>
    if p.1 ≠ "" ∨ p.2 ≠ "" then some ("ユーザー: " ++ p.1 ++ "\n麻理: " ++ p.2).toList
    else none)
  let historyText : String := ⟨joinSep "\n".toList historyParts⟩
  let memorySection :=
    if memorySummary ≠ "" then "\n# 過去の記憶\n" ++ memorySummary ++ "\n" else ""
  let instructionText :=
    match instruction with
    | some ins => "【特別指示】" ++ ins
    | none => "ユーザーの発言「" ++ message ++ "」に応答してください。"
  let userPrompt :=
    "# 現在の状況\n- 現在地: " ++ theme ++ "\n- 好感度: " ++ toString affection ++
    " (" ++ stageName ++ ")" ++ memorySection ++ "\n# 最近の会話履歴\n" ++ historyText ++
    "\n---\n# 指示\n" ++ instructionText ++ "\n\n麻理の応答:"
  let _ := userPrompt
  callLlmDemo false

/-- A Python runtime error, as far as the except-handler in
process_chat_message distinguishes it (it does not). -/
inductive PyErr where
  | typeError
deriving DecidableEq, Repr

/-- The maximal number of positional arguments generate_dialogue accepts:
history, message, affection, stage_name, scene_params, instruction,
memory_summary (core_dialogue.py lines 147-149). -/
def generateDialogueParamCount : Nat := 7

/-- The number of positional arguments process_chat_message passes to
generate_dialogue (main_app.py lines 1567-1569: history, message,
affection, stage_name, scene_params, instruction, memory_summary,
ura_mode). -/
def processChatArgCount : Nat := 8

/-- The Python call of generate_dialogue with positional-arity checking: a
call with more positional arguments than the signature accepts raises
TypeError before the body runs. -/
def pyCallGenerateDialogueDemo (argCount : Nat) (history : List (String × String))
    (message : String) (affection : Int) (stageName : String) (theme : String)
    (instruction : Option String) (memorySummary : String) : Except PyErr String :=
  if argCount ≤ generateDialogueParamCount then
    .ok (generateDialogueDemo history message affection stageName theme
          instruction memorySummary)
  else
    .error .typeError

/-- main_app.process_chat_message (lines 1457-1585) with no provider
credentials configured (GEMINI_API_KEY and GROQ_API_KEY unset, so the
dialogue generator is in demo mode and the scene manager has no client).

Modelled from the spec: the collaborators that are not part of the
repository snapshot are abstracted — session validation and the tutorial
step hook succeed without effect on the result, the rate limiter's verdict
is the rateLimitOk input, and SentimentAnalyzer.update_affection returns
the updatedAffection/stageName inputs without raising.  Everything else
follows the source: history construction, scene detection (which returns
None immediately for lack of a client), memory compression, the
generate_dialogue call — with its positional arity — and the
HIDDEN-format fallbacks; any exception in the body is caught and turned
into the fixed apology line. -/
def processChatMessageDemo (rateLimitOk : Bool) (msgs : List PyMessage)
    (updatedAffection : Int) (stageName : String) (theme : String)
    (memCache : List String)
    (extractImportantWords : List PyMessage → List String)
    (message : String) : String :=
  let body : Except PyErr String :=
    if !rateLimitOk then
      .ok "（…少し話すのが速すぎる。もう少し、ゆっくり話してくれないか？）"
    else
      let history := buildHistory msgs
      let newTheme := detectSceneChange (fun _ => .failure) history false theme
      let instruction := newTheme.map (fun nt => getSceneTransitionMessage theme nt)
      let nonInitial := nonInitialMessages msgs
      let compressed := compressHistory defaultHistoryThreshold extractImportantWords
        nonInitial memCache
      let memorySummary := getMemorySummary compressed.2
      match pyCallGenerateDialogueDemo processChatArgCount history message
          updatedAffection stageName theme instruction memorySummary with
      | .error e => .error e
      | .ok response =>
        .ok (if response = "" then
               "[HIDDEN:（言葉が出てこない...）]…なんて言えばいいか分からない。"
             else if pyIn "[HIDDEN:" response then response
             else "[HIDDEN:（本当の気持ちは...）]" ++ response)
  match body with
  | .ok r => r
  | .error _ => "（ごめん、システムの調子が悪いみたいだ。）"

/-- The fixed apology returned by the except-handler of
process_chat_message (main_app.py line 1585). -/
def systemTroubleLine : String := "（ごめん、システムの調子が悪いみたいだ。）"

/-! ## main_app.render_letter_tab (lines 1713-1948): letter request gating -/

/-- The affection floor for letter requests (main_app.py line 1776). -/
def requiredAffection : Int := 40

/-- The control flow of render_letter_tab as far as it decides whether
RequestManager.submit_request is invoked.  Inputs abstract the external
collaborators: isTutorialStep4 is the tutorial exemption computed on lines
1780-1782, hasPendingRequest the request status fetched on line 1795,
submitted/themeEmpty the form interaction.  Returns true iff the
submit_request call on line 1939 is reached. -/
def renderLetterTabSubmits (affection : Int) (isTutorialStep4 : Bool)
    (hasPendingRequest : Bool) (submitted : Bool) (themeEmpty : Bool) : Bool :=
  if affection < requiredAffection ∧ ¬isTutorialStep4 then
    false
  else if hasPendingRequest then
    false
  else if submitted then
    if themeEmpty then false
    else if isTutorialStep4 then false
    else true
  else false

/-! ## General lemmas about the string primitives -/

theorem startsWithSeq_append_of {n s : List Char} (b : List Char)
    (h : startsWithSeq n s = true) : startsWithSeq n (s ++ b) = true := by
  induction n generalizing s with
  | nil => simp [startsWithSeq]
  | cons c cs ih =>
    cases s with
    | nil => simp [startsWithSeq] at h
    | cons d ds =>
      simp only [startsWithSeq, Bool.and_eq_true] at h ⊢
      exact ⟨h.1, ih h.2⟩

theorem startsWithSeq_self_append (n b : List Char) :
    startsWithSeq n (n ++ b) = true := by
  induction n with
  | nil => simp [startsWithSeq]
  | cons c cs ih => simp [startsWithSeq, ih]

theorem containsSeq_of_startsWithSeq {n s : List Char}
    (h : startsWithSeq n s = true) : containsSeq n s = true := by
  cases s with
  | nil => simpa [containsSeq] using h
  | cons c rest => simp [containsSeq, h]

theorem containsSeq_append_left {n a : List Char} (b : List Char)
    (h : containsSeq n a = true) : containsSeq n (a ++ b) = true := by
  induction a with
  | nil =>
    simp only [containsSeq] at h
    exact containsSeq_of_startsWithSeq (startsWithSeq_append_of b h)
  | cons c cs ih =>
    simp only [containsSeq, Bool.or_eq_true] at h
    rcases h with h | h
    · simp only [List.cons_append, containsSeq, Bool.or_eq_true]
      exact Or.inl (startsWithSeq_append_of b h)
    · simp only [List.cons_append, containsSeq, Bool.or_eq_true]
      exact Or.inr (ih h)

theorem containsSeq_append_right {n b : List Char} (a : List Char)
    (h : containsSeq n b = true) : containsSeq n (a ++ b) = true := by
  induction a with
  | nil => simpa using h
  | cons c cs ih =>
    simp only [List.cons_append, containsSeq, Bool.or_eq_true]
    exact Or.inr ih

theorem containsSeq_joinSep_of_mem {n x : List Char} (sep : List Char)
    {parts : List (List Char)} (hx : x ∈ parts) (h : containsSeq n x = true) :
    containsSeq n (joinSep sep parts) = true := by
  induction parts with
  | nil => cases hx
  | cons p ps ih =>
    cases ps with
    | nil =>
      rcases List.mem_singleton.mp hx with rfl
      simpa [joinSep] using h
    | cons q qs =>
      rcases List.mem_cons.mp hx with rfl | hmem
      · simpa [joinSep, List.append_assoc] using containsSeq_append_left _ h
      · simpa [joinSep, List.append_assoc] using
          containsSeq_append_right _ (containsSeq_append_right _ (ih hmem))

/-! ## Claim C5: MemoryManager compression threshold and cache bound -/

/-- C5: should_compress_history is true iff the user-role message count
reaches history_threshold (default 10); when it is false, compress_history
returns the messages unchanged with the current cache; and compress_history
preserves the 20-entry cache bound, for every possible extraction result,
so repeated calls never grow the cache beyond 20. -/
theorem memory_manager_compression_invariants
    (historyThreshold : Nat) (messages : List PyMessage)
    (extractImportantWords : List PyMessage → List String)
    (cache : List String) :
    (shouldCompressHistory historyThreshold messages = true ↔
      historyThreshold ≤ (messages.filter (fun m => m.role == "user")).length) ∧
    defaultHistoryThreshold = 10 ∧
    (shouldCompressHistory historyThreshold messages = false →
      compressHistory historyThreshold extractImportantWords messages cache =
        (messages, cache)) ∧
    (cache.length ≤ 20 →
      (compressHistory historyThreshold extractImportantWords messages cache).2.length
        ≤ 20) := by
  refine ⟨by simp [shouldCompressHistory], rfl, ?_, ?_⟩
  · intro hfalse
    simp [compressHistory, hfalse]
  · intro hbound
    by_cases hsc : shouldCompressHistory historyThreshold messages = true
    · simp only [compressHistory, hsc, Bool.not_true, Bool.false_eq_true, if_false]
      by_cases hlen : messages.length > 4
      · by_cases hold : (if messages.length > 4 then
            messages.take (messages.length - 4) else []) ≠ []
        · simp only [if_pos hold]
          simp
        · simp only [if_neg hold]
          exact hbound
      · have hold : (if messages.length > 4 then
            messages.take (messages.length - 4) else ([] : List PyMessage)) = [] := by
          simp [hlen]
        simp only [hold]
        simp only [ne_eq, not_true_eq_false, if_false]
        exact hbound
    · have : shouldCompressHistory historyThreshold messages = false := by
        simpa using hsc
      simp [compressHistory, this, hbound]

/-- Witness for C5 at a concrete input: 10 user messages trigger
compression and the resulting cache stays within the bound. -/
theorem memory_manager_compression_invariants_witness :
    (([] : List String).length ≤ 20) ∧
    ((shouldCompressHistory 10 (List.replicate 10 ⟨"user", "x", false, none⟩) = true ↔
      10 ≤ ((List.replicate 10 (⟨"user", "x", false, none⟩ : PyMessage)).filter
        (fun m => m.role == "user")).length) ∧
    defaultHistoryThreshold = 10 ∧
    (shouldCompressHistory 10 (List.replicate 10 ⟨"user", "x", false, none⟩) = false →
      compressHistory 10 (fun _ => ["w"]) (List.replicate 10 ⟨"user", "x", false, none⟩) [] =
        (List.replicate 10 ⟨"user", "x", false, none⟩, [])) ∧
    (([] : List String).length ≤ 20 →
      (compressHistory 10 (fun _ => ["w"])
        (List.replicate 10 ⟨"user", "x", false, none⟩) []).2.length ≤ 20)) :=
  ⟨by decide,
   memory_manager_compression_invariants 10
     (List.replicate 10 ⟨"user", "x", false, none⟩) (fun _ => ["w"]) []⟩

/-! ## Claim C6: scene validation accepts only known catalog keys -/

/-- C6: the Groq scene validation yields some new scene exactly when the
external exchange produced a string scene value that is a known catalog
key different from the current theme; every other outcome — failure,
parse error, a non-string value, an absent key, the literal none, an
unknown key, or the current theme — yields none. -/
theorem scene_validation_accepts_only_catalog_keys
    (outcome : GroqOutcome) (currentTheme s : String) :
    detectSceneWithGroq outcome currentTheme = some s ↔
      (outcome = .ok (some (.str s)) ∧ s ∈ themeKeys ∧ s ≠ currentTheme) := by
  constructor
  · intro h
    match outcome with
    | .failure => simp [detectSceneWithGroq] at h
    | .ok none =>
      simp only [detectSceneWithGroq, Option.getD_none] at h
      have : ("none" : String) ∈ themeKeys → False := by decide
      split_ifs at h with hc
      cases h
      exact absurd hc.2.1 (by simpa using this)
    | .ok (some .nonStr) => simp [detectSceneWithGroq] at h
    | .ok (some (.str v)) =>
      simp only [detectSceneWithGroq, Option.getD_some] at h
      split_ifs at h with hc
      cases h
      exact ⟨rfl, hc.2.1, hc.2.2⟩
  · rintro ⟨rfl, hmem, hne⟩
    have hnone : s ≠ "none" := by
      intro he
      rw [he] at hmem
      revert hmem
      decide
    simp [detectSceneWithGroq, hnone, hmem, hne]

/-- Witness for C6 at a concrete input: a returned beach_sunset scene is
accepted when the current theme is default. -/
theorem scene_validation_accepts_only_catalog_keys_witness :
    detectSceneWithGroq (.ok (some (.str "beach_sunset"))) "default" =
      some "beach_sunset" :=
  (scene_validation_accepts_only_catalog_keys
      (.ok (some (.str "beach_sunset"))) "default" "beach_sunset").mpr
    ⟨rfl, by decide, by decide⟩

/-! ## Claim C7: letter requests are refused below the affection floor -/

/-- C7: with affection below 40 and the tutorial step-4 exemption
inactive, render_letter_tab returns before the request form, so
RequestManager.submit_request is never invoked. -/
theorem letter_request_gated_below_affection_floor
    (affection : Int) (hasPendingRequest submitted themeEmpty : Bool)
    (hlow : affection < 40) :
    renderLetterTabSubmits affection false hasPendingRequest submitted themeEmpty
      = false := by
  simp [renderLetterTabSubmits, requiredAffection, hlow]

/-- Witness for C7 at a concrete input: affection 39, form submitted with
a theme, no pending request. -/
theorem letter_request_gated_below_affection_floor_witness :
    ((39 : Int) < 40) ∧
    renderLetterTabSubmits 39 false false true false = false :=
  ⟨by decide, letter_request_gated_below_affection_floor 39 false true false (by decide)⟩

/-! ## Claim C1: demo-mode chat replies (code bug: arity mismatch) -/

/-- C1 (code bug witness): with no provider credentials, a non-empty,
rate-limit-permitted message makes process_chat_message return the
except-handler's apology line, not the demo deflection line the spec
requires — the generate_dialogue call passes 8 positional arguments to a
7-parameter signature, so a TypeError is raised and caught.  The demo-mode
call_llm itself would indeed answer with the deflection line, and the call
is attempted with more arguments than the signature accepts. -/
theorem demo_chat_returns_apology_not_deflection :
    processChatMessageDemo true [⟨"assistant", "何の用？遊びに来たの？", true, none⟩]
      30 "不信" "default" [] (fun _ => []) "こんにちは" = systemTroubleLine ∧
    systemTroubleLine ≠ demoDeflectionLine ∧
    callLlmDemo false = demoDeflectionLine ∧
    generateDialogueParamCount < processChatArgCount := by
  refine ⟨by rfl, by decide, rfl, by decide⟩

/-! ## Claim C2: the dog toggle writes flip keys rendering never reads
(code bug: key mismatch) -/

/-- A concrete session the dog button acts on: the initial assistant
greeting (which carries no message_id) plus one user/assistant exchange
added through the chat flow with explicit ids user_1/assistant_2
(main_app.py lines 1617-1621). -/
def dogClickSampleMessages : List PyMessage :=
  [⟨"assistant", "何の用？遊びに来たの？", true, none⟩,
   ⟨"user", "こんにちは", false, some "user_1"⟩,
   ⟨"assistant", "[HIDDEN:本当は嬉しい]別に。", false, some "assistant_2"⟩]

/-- C2 (code bug witness): after the dog-button click flips the reveal-all
flag on, the handler has written true under the positional key msg_2, but
render_chat_history reads the flip state of the assistant message at index
2 under its message_id key assistant_2 and still obtains false — the write
key and the render key differ, so the rendered message does not match the
flag. -/
theorem dog_toggle_key_mismatch :
    (handleDogButtonClick ⟨false, [], dogClickSampleMessages⟩).showAllHidden = true ∧
    dictGetD (handleDogButtonClick ⟨false, [], dogClickSampleMessages⟩).messageFlipStates
      (flipWriteKey 2) false = true ∧
    flipRenderKey 2 ⟨"assistant", "[HIDDEN:本当は嬉しい]別に。", false, some "assistant_2"⟩
      = "assistant_2" ∧
    renderedFlipState (handleDogButtonClick ⟨false, [], dogClickSampleMessages⟩) 2
      ⟨"assistant", "[HIDDEN:本当は嬉しい]別に。", false, some "assistant_2"⟩ = false := by
  refine ⟨by decide, by decide, by decide, by decide⟩

/-! ## Claim C10: the bounded history keeps the oldest five pairs -/

theorem take_zip_eq (l1 : List α) (l2 : List β) (n : Nat) :
    (l1.zip l2).take n = (l1.take n).zip (l2.take n) := by
  induction n generalizing l1 l2 with
  | zero => simp
  | succ m ih =>
    cases l1 with
    | nil => simp
    | cons a as =>
      cases l2 with
      | nil => simp
      | cons b bs => simp [List.zip_cons_cons, ih]

/-- C10: when the non-initial messages hold more than 5 user/assistant
pairs, the history process_chat_message builds (and hands to scene
detection and dialogue generation) is the 5 chronologically oldest pairs —
the i-th user content paired with the i-th assistant content for i < 5 —
and generate_dialogue's internal last-5 truncation leaves this 5-element
list unchanged. -/
theorem bounded_history_keeps_oldest_five_pairs (msgs : List PyMessage)
    (hu : 5 < (userContents (nonInitialMessages msgs)).length)
    (ha : 5 < (assistantContents (nonInitialMessages msgs)).length) :
    buildHistory msgs =
      ((userContents (nonInitialMessages msgs)).take 5).zip
        ((assistantContents (nonInitialMessages msgs)).take 5) ∧
    (buildHistory msgs).length = 5 ∧
    (∀ i x y, i < 5 →
      (userContents (nonInitialMessages msgs)).get? i = some x →
      (assistantContents (nonInitialMessages msgs)).get? i = some y →
      (buildHistory msgs).get? i = some (x, y)) ∧
    recentHistory (buildHistory msgs) = buildHistory msgs := by
  have hlen : (buildHistory msgs).length = 5 := by
    simp only [buildHistory, List.length_take, List.length_zip]
    omega
  refine ⟨take_zip_eq .., hlen, ?_, ?_⟩
  · intro i x y hi hx hy
    simp only [buildHistory, List.get?_eq_getElem?]
    rw [List.getElem?_take_of_lt hi]
    rw [← List.get?_eq_getElem?, List.get?_zip_eq_some]
    exact ⟨hx, hy⟩
  · simp [recentHistory, lastN, hlen]

/-- Sample session for the C10 witness: the initial greeting plus six
完全な user/assistant exchanges. -/
def sixPairMessages : List PyMessage :=
  [⟨"assistant", "何の用？遊びに来たの？", true, none⟩,
   ⟨"user", "u0", false, some "user_1"⟩, ⟨"assistant", "a0", false, some "assistant_2"⟩,
   ⟨"user", "u1", false, some "user_3"⟩, ⟨"assistant", "a1", false, some "assistant_4"⟩,
   ⟨"user", "u2", false, some "user_5"⟩, ⟨"assistant", "a2", false, some "assistant_6"⟩,
   ⟨"user", "u3", false, some "user_7"⟩, ⟨"assistant", "a3", false, some "assistant_8"⟩,
   ⟨"user", "u4", false, some "user_9"⟩, ⟨"assistant", "a4", false, some "assistant_10"⟩,
   ⟨"user", "u5", false, some "user_11"⟩, ⟨"assistant", "a5", false, some "assistant_12"⟩]

/-- Witness for C10 at a concrete input with six pairs. -/
theorem bounded_history_keeps_oldest_five_pairs_witness :
    (5 < (userContents (nonInitialMessages sixPairMessages)).length) ∧
    (buildHistory sixPairMessages =
      ((userContents (nonInitialMessages sixPairMessages)).take 5).zip
        ((assistantContents (nonInitialMessages sixPairMessages)).take 5) ∧
    (buildHistory sixPairMessages).length = 5 ∧
    (∀ i x y, i < 5 →
      (userContents (nonInitialMessages sixPairMessages)).get? i = some x →
      (assistantContents (nonInitialMessages sixPairMessages)).get? i = some y →
      (buildHistory sixPairMessages).get? i = some (x, y)) ∧
    recentHistory (buildHistory sixPairMessages) = buildHistory sixPairMessages) :=
  ⟨by decide,
   bounded_history_keeps_oldest_five_pairs sixPairMessages (by decide) (by decide)⟩

/-! ## Claim C8: the local scene pre-filter -/

theorem string_toList_append (a b : String) :
    (a ++ b).toList = a.toList ++ b.toList :=
  String.data_append a b

/-- A six-turn history whose only mention of the beach sits in the oldest
turn, outside the last-5 window the detector renders. -/
def beachBeyondWindowHistory : List (String × String) :=
  ("ビーチの話", "いいね") :: List.replicate 5 ("そうだね", "うん")

/-- C8 counterexample: this history contains the literal word ビーチ (in
its first turn), yet with a configured client the local stage returns none
— the keyword lies outside the rendered last-5-turn text, so the history
does not pass the pre-filter and no external stage is reached, contrary to
the claim that a history containing ビーチ always passes. -/
theorem beach_history_fails_prefilter_beyond_window :
    pyIn "ビーチ" "ビーチの話" = true ∧
    beachBeyondWindowHistory.head? = some ("ビーチの話", "いいね") ∧
    detectSceneChangePre beachBeyondWindowHistory true = none ∧
    detectSceneChange (fun _ => .ok (some (.str "beach_sunset")))
      beachBeyondWindowHistory true "default" = none := by
  refine ⟨by decide, by decide, by decide, by decide⟩

/-- C8 as amended: detect_scene_change performs no external call — and
returns none — whenever the history is empty, whenever no client is
configured, or whenever the rendered last-5-turn text has no location
keyword; and whenever ビーチ occurs in a turn inside the last-5 window,
the pre-filter passes and the external stage receives the rendered text. -/
theorem scene_prefilter_gating
    (history : List (String × String)) (hasClient : Bool)
    (oracle : String → GroqOutcome) (currentTheme : String) :
    (detectSceneChangePre [] hasClient = none) ∧
    (detectSceneChangePre history false = none) ∧
    (hasLocationKeywords (renderHistoryText (lastN 5 history)) = false →
      detectSceneChangePre history hasClient = none ∧
      detectSceneChange oracle history hasClient currentTheme = none) ∧
    (∀ u m, (u, m) ∈ lastN 5 history →
      (pyIn "ビーチ" u || pyIn "ビーチ" m) = true →
      detectSceneChangePre history true =
        some (renderHistoryText (lastN 5 history))) := by
  refine ⟨by simp [detectSceneChangePre, lastN], ?_, ?_, ?_⟩
  · cases history <;> simp [detectSceneChangePre]
  · intro hno
    have hpre : detectSceneChangePre history hasClient = none := by
      unfold detectSceneChangePre
      split_ifs with h1 h2 <;> simp_all
    exact ⟨hpre, by simp [detectSceneChange, hpre]⟩
  · intro u m hmem hbeach
    have hne : history ≠ [] := by
      intro h
      rw [h] at hmem
      simp [lastN] at hmem
    have hline : containsSeq "ビーチ".toList
        ("ユーザー: " ++ u ++ "\n麻理: " ++ m).toList = true := by
      rw [string_toList_append, string_toList_append, string_toList_append]
      rcases Bool.or_eq_true_iff.mp hbeach with hb | hb
      · exact containsSeq_append_left _
          (containsSeq_append_left _ (containsSeq_append_right _ hb))
      · exact containsSeq_append_right _ hb
    have hkw : hasLocationKeywords (renderHistoryText (lastN 5 history)) = true := by
      have hmemline : ("ユーザー: " ++ u ++ "\n麻理: " ++ m).toList ∈
          (lastN 5 history).map (fun p => ("ユーザー: " ++ p.1 ++ "\n麻理: " ++ p.2).toList) :=
        List.mem_map.mpr ⟨(u, m), hmem, rfl⟩
      have hjoin := containsSeq_joinSep_of_mem "\n".toList hmemline hline
      simp only [hasLocationKeywords, locationKeywords, List.any_cons]
      have : pyIn "ビーチ" (renderHistoryText (lastN 5 history)) = true := by
        simpa [pyIn, renderHistoryText] using hjoin
      simp [this]
    unfold detectSceneChangePre
    have hempty : history.isEmpty = false := by
      cases history with
      | nil => exact absurd rfl hne
      | cons a l => rfl
    simp [hempty, hkw]

/-- Witness for C8 at a concrete input: a beach mention in the (only, so
within-window) turn passes the pre-filter, and a keyword-free history is
rejected. -/
theorem scene_prefilter_gating_witness :
    (hasLocationKeywords (renderHistoryText (lastN 5 [(("こんにちは" : String), ("やあ" : String))])) = false →
      detectSceneChangePre [("こんにちは", "やあ")] true = none ∧
      detectSceneChange (fun _ => .failure) [("こんにちは", "やあ")] true "default" = none) ∧
    ((("ビーチに行こう", "いいね") ∈ lastN 5 [(("ビーチに行こう" : String), ("いいね" : String))]) ∧
     (pyIn "ビーチ" "ビーチに行こう" || pyIn "ビーチ" "いいね") = true ∧
     detectSceneChangePre [("ビーチに行こう", "いいね")] true =
       some (renderHistoryText (lastN 5 [(("ビーチに行こう" : String), ("いいね" : String))]))) :=
  ⟨(scene_prefilter_gating [("こんにちは", "やあ")] true (fun _ => .failure) "default").2.2.1,
   by decide, by decide,
   (scene_prefilter_gating [("ビーチに行こう", "いいね")] true (fun _ => .failure) "default").2.2.2
     "ビーチに行こう" "いいね" (by decide) (by decide)⟩

/-! ## Claims C3 and C4: hidden-content detection -/

theorem string_mk_toList (s : String) : (⟨s.toList⟩ : String) = s := by
  cases s
  rfl

theorem takeWhile_ne_newline {t : List Char} (h : '\n' ∉ t) :
    t.takeWhile (fun c => c ≠ '\n') = t := by
  induction t with
  | nil => rfl
  | cons c cs ih =>
    have hc : c ≠ '\n' := fun he => h (he ▸ List.mem_cons_self c cs)
    have hcs : '\n' ∉ cs := fun hm => h (List.mem_cons_of_mem c hm)
    have hpc : (fun c => decide (c ≠ '\n')) c = true := by simp [hc]
    simp only [List.takeWhile_cons, hpc, if_true]
    rw [ih hcs]

theorem grabHidden_append {h : List Char} (t : List Char)
    (hbr : ']' ∉ h) (hnl : '\n' ∉ h) :
    grabHidden (h ++ ']' :: t) = some (h, t) := by
  induction h with
  | nil => simp [grabHidden]
  | cons c cs ih =>
    have hc1 : c ≠ ']' := fun he => hbr (he ▸ List.mem_cons_self c cs)
    have hc2 : c ≠ '\n' := fun he => hnl (he ▸ List.mem_cons_self c cs)
    have hcs1 : ']' ∉ cs := fun hm => hbr (List.mem_cons_of_mem c hm)
    have hcs2 : '\n' ∉ cs := fun hm => hnl (List.mem_cons_of_mem c hm)
    simp [grabHidden, hc1, hc2, ih hcs1 hcs2]

theorem matchHiddenAt_construct {h : List Char} (t : List Char)
    (hbr : ']' ∉ h) (hnh : '\n' ∉ h) (hnt : '\n' ∉ t) :
    matchHiddenAt (hiddenMarker ++ h ++ ']' :: t) = some (h, t) := by
  rw [List.append_assoc]
  unfold matchHiddenAt
  simp only [startsWithSeq_self_append, if_true]
  rw [List.drop_left]
  rw [grabHidden_append t hbr hnh]
  simp only [Option.some.injEq]
  rw [takeWhile_ne_newline hnt]

theorem searchHidden_construct {h : List Char} (t : List Char)
    (hbr : ']' ∉ h) (hnh : '\n' ∉ h) (hnt : '\n' ∉ t) :
    searchHidden (hiddenMarker ++ h ++ ']' :: t) = some (h, t) := by
  have hmt := matchHiddenAt_construct t hbr hnh hnt
  show searchHidden ('[' :: ("HIDDEN:".toList ++ h ++ ']' :: t)) = some (h, t)
  rw [searchHidden]
  have : ('[' : Char) :: ("HIDDEN:".toList ++ h ++ ']' :: t) =
      hiddenMarker ++ h ++ ']' :: t := rfl
  rw [this, hmt]

/-- Detection on a message built from a marker with well-formed payloads:
the generic composition fact underlying C3 and C4. -/
theorem detectHiddenContent_construct {h t : List Char}
    (hbr : ']' ∉ h) (hnh : '\n' ∉ h) (hnt : '\n' ∉ t) :
    detectHiddenContent ⟨hiddenMarker ++ h ++ ']' :: t⟩ =
      (true, ⟨pyStrip t⟩, ⟨pyStrip h⟩) := by
  unfold detectHiddenContent
  have : (⟨hiddenMarker ++ h ++ ']' :: t⟩ : String).toList =
      hiddenMarker ++ h ++ ']' :: t := rfl
  rw [this, searchHidden_construct t hbr hnh hnt]

/-- C3 counterexample: with two markers in the input, the visible part
returned by detection still contains the second marker verbatim — nothing
is stripped from display (and the source has no warning call on this
path), contrary to the claim. -/
theorem second_marker_not_stripped_from_display :
    detectHiddenContent "[HIDDEN:a]x[HIDDEN:b]y" = (true, "x[HIDDEN:b]y", "a") ∧
    pyIn "[HIDDEN:" "x[HIDDEN:b]y" = true := by
  refine ⟨by decide, by decide⟩

/-- C3 as amended: for an input carrying two markers on one line,
detection returns exactly one (hidden, visible) pair and never raises;
the hidden part is the first marker's payload, and the visible part is
the whole remainder after the first marker's bracket — the second marker
is retained verbatim in it, not stripped, and no warning is logged. -/
theorem startsWithSeq_iff_exists (n : List Char) :
    ∀ s, startsWithSeq n s = true ↔ ∃ b, n ++ b = s := by
  induction n with
  | nil =>
    intro s
    simp [startsWithSeq]
  | cons d ds ih =>
    intro s
    cases s with
    | nil =>
      simp [startsWithSeq]
    | cons c cs =>
      simp only [startsWithSeq, Bool.and_eq_true, beq_iff_eq, ih cs]
      constructor
      · rintro ⟨rfl, b, rfl⟩
        exact ⟨b, rfl⟩
      · rintro ⟨b, hb⟩
        rw [List.cons_append] at hb
        injection hb with hbc hbs
        exact ⟨hbc, b, hbs⟩

theorem containsSeq_iff_exists (n : List Char) :
    ∀ t, containsSeq n t = true ↔ ∃ a b, a ++ (n ++ b) = t := by
  intro t
  induction t with
  | nil =>
    simp only [containsSeq, startsWithSeq_iff_exists]
    constructor
    · rintro ⟨b, hb⟩
      exact ⟨[], b, hb⟩
    · rintro ⟨a, b, hab⟩
      rcases List.append_eq_nil.mp hab with ⟨rfl, hnb⟩
      exact ⟨b, hnb⟩
  | cons c cs ih =>
    simp only [containsSeq, Bool.or_eq_true, startsWithSeq_iff_exists, ih]
    constructor
    · rintro (⟨b, hb⟩ | ⟨a, b, hab⟩)
      · exact ⟨[], b, hb⟩
      · exact ⟨c :: a, b, by rw [List.cons_append, hab]⟩
    · rintro ⟨a, b, hab⟩
      cases a with
      | nil => exact Or.inl ⟨b, hab⟩
      | cons a0 as =>
        rw [List.cons_append] at hab
        injection hab with hac has
        exact Or.inr ⟨as, b, has⟩

theorem containsSeq_reverse {n t : List Char} (h : containsSeq n t = true) :
    containsSeq n.reverse t.reverse = true := by
  obtain ⟨a, b, hab⟩ := (containsSeq_iff_exists n t).mp h
  refine (containsSeq_iff_exists n.reverse t.reverse).mpr ⟨b.reverse, a.reverse, ?_⟩
  rw [← hab]
  simp [List.reverse_append, List.append_assoc]

theorem containsSeq_dropWhile_of_nonspace {n : List Char} (p : Char → Bool)
    (hn : ∀ c ∈ n, p c = false) (hne : n ≠ []) :
    ∀ {t : List Char}, containsSeq n t = true →
      containsSeq n (t.dropWhile p) = true := by
  intro t
  induction t with
  | nil =>
    intro h
    cases n with
    | nil => exact absurd rfl hne
    | cons d ds => simp [containsSeq, startsWithSeq] at h
  | cons c cs ih =>
    intro h
    rw [List.dropWhile_cons]
    by_cases hpc : p c
    · rw [if_pos hpc]
      apply ih
      simp only [containsSeq, Bool.or_eq_true] at h
      rcases h with hsw | hc
      · exfalso
        cases n with
        | nil => exact absurd rfl hne
        | cons d ds =>
          simp only [startsWithSeq, Bool.and_eq_true, beq_iff_eq] at hsw
          have hd : p d = false := hn d (List.mem_cons_self d ds)
          rw [hsw.1, hpc] at hd
          cases hd
      · exact hc
    · rw [if_neg hpc]
      exact h

/-- A run of non-whitespace characters survives Python strip: only
whitespace is removed from the ends. -/
theorem containsSeq_pyStrip {n t : List Char}
    (hn : ∀ c ∈ n, isPySpace c = false) (hne : n ≠ [])
    (h : containsSeq n t = true) : containsSeq n (pyStrip t) = true := by
  have h1 := containsSeq_dropWhile_of_nonspace isPySpace hn hne h
  have h2 := containsSeq_reverse h1
  have hn2 : ∀ c ∈ n.reverse, isPySpace c = false := fun c hc =>
    hn c (List.mem_reverse.mp hc)
  have hne2 : n.reverse ≠ [] := by simpa using hne
  have h3 := containsSeq_dropWhile_of_nonspace isPySpace hn2 hne2 h2
  have h4 := containsSeq_reverse h3
  simpa [pyStrip] using h4

/-- With no opening bracket in the text before the marker, no earlier
position can start a match, so re.search lands on the marker itself. -/
theorem searchHidden_prefix_construct {s1 h t : List Char}
    (hpre : '[' ∉ s1) (hbr : ']' ∉ h) (hnh : '\n' ∉ h) (hnt : '\n' ∉ t) :
    searchHidden (s1 ++ (hiddenMarker ++ h ++ ']' :: t)) = some (h, t) := by
  induction s1 with
  | nil => exact searchHidden_construct t hbr hnh hnt
  | cons c cs ih =>
    have hc : c ≠ '[' := fun he => hpre (he ▸ List.mem_cons_self c cs)
    have hcs : '[' ∉ cs := fun hm => hpre (List.mem_cons_of_mem c hm)
    rw [List.cons_append, searchHidden]
    have hmat : matchHiddenAt (c :: (cs ++ (hiddenMarker ++ h ++ ']' :: t))) = none := by
      unfold matchHiddenAt
      have hfalse : startsWithSeq hiddenMarker
          (c :: (cs ++ (hiddenMarker ++ h ++ ']' :: t))) = false := by
        show (('[' : Char) == c &&
          startsWithSeq "HIDDEN:".toList (cs ++ (hiddenMarker ++ h ++ ']' :: t))) = false
        have hb : (('[' : Char) == c) = false := by
          refine beq_eq_false_iff_ne.mpr ?_
          exact fun he => hc he.symm
        rw [hb, Bool.false_and]
      rw [hfalse]
      simp
    rw [hmat]
    exact ih hcs

/-- Detection on a message with arbitrary marker-free text before the
first marker: both captured groups come back stripped. -/
theorem detectHiddenContent_prefix_construct {s1 h t : List Char}
    (hpre : '[' ∉ s1) (hbr : ']' ∉ h) (hnh : '\n' ∉ h) (hnt : '\n' ∉ t) :
    detectHiddenContent ⟨s1 ++ (hiddenMarker ++ h ++ ']' :: t)⟩ =
      (true, ⟨pyStrip t⟩, ⟨pyStrip h⟩) := by
  unfold detectHiddenContent
  have hdata : (⟨s1 ++ (hiddenMarker ++ h ++ ']' :: t)⟩ : String).toList =
      s1 ++ (hiddenMarker ++ h ++ ']' :: t) := rfl
  rw [hdata, searchHidden_prefix_construct hpre hbr hnh hnt]

/-- C3 as amended: for an input made of prefix text containing no opening
bracket, a first marker whose payload has no closing bracket and no
newline, and a same-line remainder containing a second marker, detection
returns exactly one (hidden, visible) pair and never raises: hidden is
the first payload with surrounding whitespace stripped, visible is the
entire remainder after the first closing bracket with surrounding
whitespace stripped — the second marker is retained verbatim inside it,
not stripped from display — and no warning is logged. -/
theorem multiple_hidden_markers_detection (s1 h1 s2 h2 s3 : List Char)
    (hpre : '[' ∉ s1)
    (hbr : ']' ∉ h1) (hn1 : '\n' ∉ h1)
    (hnt : '\n' ∉ s2 ++ hiddenMarker ++ h2 ++ ']' :: s3) :
    detectHiddenContent ⟨s1 ++ (hiddenMarker ++ h1 ++ ']' ::
        (s2 ++ hiddenMarker ++ h2 ++ ']' :: s3))⟩ =
      (true, ⟨pyStrip (s2 ++ hiddenMarker ++ h2 ++ ']' :: s3)⟩, ⟨pyStrip h1⟩) ∧
    containsSeq hiddenMarker
      (pyStrip (s2 ++ hiddenMarker ++ h2 ++ ']' :: s3)) = true := by
  constructor
  · exact detectHiddenContent_prefix_construct hpre hbr hn1 hnt
  · have hmid : containsSeq hiddenMarker (hiddenMarker ++ (h2 ++ ']' :: s3)) = true :=
      containsSeq_of_startsWithSeq
        (startsWithSeq_self_append hiddenMarker (h2 ++ ']' :: s3))
    have hsecond : containsSeq hiddenMarker
        (s2 ++ hiddenMarker ++ h2 ++ ']' :: s3) = true := by
      rw [List.append_assoc, List.append_assoc]
      exact containsSeq_append_right s2 hmid
    exact containsSeq_pyStrip (by decide) (by decide) hsecond

/-- Witness for C3 at a concrete input: prefix text before the first
marker, whitespace around the first payload and around the remainder, and
a second marker inside the remainder. -/
theorem multiple_hidden_markers_detection_witness :
    (('[' ∉ "o ".toList) ∧ (']' ∉ " a".toList) ∧ ('\n' ∉ " a".toList)) ∧
    (detectHiddenContent ⟨"o ".toList ++ (hiddenMarker ++ " a".toList ++ ']' ::
        ("x ".toList ++ hiddenMarker ++ "b".toList ++ ']' :: "y ".toList))⟩ =
      (true, ⟨pyStrip ("x ".toList ++ hiddenMarker ++ "b".toList ++ ']' :: "y ".toList)⟩,
       ⟨pyStrip " a".toList⟩) ∧
    containsSeq hiddenMarker
      (pyStrip ("x ".toList ++ hiddenMarker ++ "b".toList ++ ']' :: "y ".toList)) = true) :=
  ⟨⟨by decide, by decide, by decide⟩,
   multiple_hidden_markers_detection "o ".toList " a".toList "x ".toList
     "b".toList "y ".toList (by decide) (by decide) (by decide) (by decide)⟩

/-- C4 counterexample: the round trip is not the identity on visible parts
with surrounding whitespace — detection strips them, so a trailing space
in the visible content is lost. -/
theorem hidden_roundtrip_strips_whitespace :
    detectHiddenContent (createHiddenContentMessage "x " "y") ≠ (true, "x ", "y") ∧
    detectHiddenContent (createHiddenContentMessage "x " "y") = (true, "x", "y") := by
  refine ⟨by decide, by decide⟩

/-- C4 as amended: for a visible string and a hidden string where the
hidden part contains no closing bracket, neither part contains a newline,
and neither part carries leading or trailing whitespace, composing
create_hidden_content_message with detection gives back exactly
(true, visible, hidden). -/
theorem hidden_roundtrip (v h : String)
    (hbr : ']' ∉ h.toList) (hnh : '\n' ∉ h.toList) (hnv : '\n' ∉ v.toList)
    (hsv : pyStrip v.toList = v.toList) (hsh : pyStrip h.toList = h.toList) :
    detectHiddenContent (createHiddenContentMessage v h) = (true, v, h) := by
  unfold createHiddenContentMessage
  rw [detectHiddenContent_construct hbr hnh hnv, hsv, hsh,
    string_mk_toList, string_mk_toList]

/-- Witness for C4 at a concrete input. -/
theorem hidden_roundtrip_witness :
    ((']' ∉ "ほんと".toList) ∧ ('\n' ∉ "別に".toList)) ∧
    detectHiddenContent (createHiddenContentMessage "別に" "ほんと") =
      (true, "別に", "ほんと") :=
  ⟨⟨by decide, by decide⟩,
   hidden_roundtrip "別に" "ほんと" (by decide) (by decide) (by decide)
     (by decide) (by decide)⟩

/-! ## Claim C9: sanitize_message is idempotent

The proof characterises the shape of sanitize output: it carries no
leading or trailing whitespace (so the second strip is the identity), no
angle brackets (so the second escaping pass is the identity), and the
whitespace-run collapse is idempotent outright. -/

/-- The first character, if any, is not whitespace. -/
def HeadOk : List Char → Prop
  | [] => True
  | c :: _ => isPySpace c = false

/-- The last character, if any, is not whitespace. -/
def LastOk (l : List Char) : Prop := HeadOk l.reverse

/-- No angle bracket occurs in the list. -/
def NoAngle (l : List Char) : Prop := ∀ c ∈ l, ¬(c = '<' ∨ c = '>')

theorem headOk_cons (c : Char) (l : List Char) :
    HeadOk (c :: l) ↔ isPySpace c = false := Iff.rfl

theorem headOk_dropWhile (l : List Char) : HeadOk (l.dropWhile isPySpace) := by
  induction l with
  | nil => trivial
  | cons c cs ih =>
    rw [List.dropWhile_cons]
    by_cases h : isPySpace c
    · rw [if_pos h]
      exact ih
    · rw [if_neg h]
      rw [headOk_cons]
      simpa using h

theorem dropWhile_eq_self_of_headOk {m : List Char} (h : HeadOk m) :
    m.dropWhile isPySpace = m := by
  cases m with
  | nil => rfl
  | cons c cs =>
    have hc : isPySpace c = false := h
    rw [List.dropWhile_cons, if_neg (by simp [hc])]

theorem headOk_of_prefix {a b : List Char} (h : a <+: b) (hb : HeadOk b) :
    HeadOk a := by
  cases a with
  | nil => trivial
  | cons c cs =>
    obtain ⟨t, ht⟩ := h
    rw [← ht] at hb
    exact hb

theorem dropWhile_suffix (p : Char → Bool) (m : List Char) :
    m.dropWhile p <:+ m :=
  ⟨m.takeWhile p, List.takeWhile_append_dropWhile p m⟩

theorem pyStrip_headOk (l : List Char) : HeadOk (pyStrip l) := by
  have hpre : ((l.dropWhile isPySpace).reverse.dropWhile isPySpace).reverse <+:
      l.dropWhile isPySpace := by
    rw [← List.reverse_suffix, List.reverse_reverse]
    exact dropWhile_suffix isPySpace (l.dropWhile isPySpace).reverse
  exact headOk_of_prefix hpre (headOk_dropWhile l)

theorem pyStrip_lastOk (l : List Char) : LastOk (pyStrip l) := by
  unfold LastOk pyStrip
  rw [List.reverse_reverse]
  exact headOk_dropWhile _

theorem headOk_append_left {a : List Char} (b : List Char) (ha : a ≠ []) :
    HeadOk (a ++ b) ↔ HeadOk a := by
  cases a with
  | nil => exact absurd rfl ha
  | cons c cs => exact Iff.rfl

theorem lastOk_of_suffix {t s : List Char} (h : t <:+ s) (hs : LastOk s) :
    LastOk t := by
  unfold LastOk at hs ⊢
  exact headOk_of_prefix (List.reverse_prefix.mpr h) hs

theorem lastOk_cons {x : Char} {t : List Char} (ht : t ≠ []) (h : LastOk t) :
    LastOk (x :: t) := by
  unfold LastOk at h ⊢
  rw [List.reverse_cons]
  rwa [headOk_append_left [x] (by simpa using ht)]

theorem lastOk_cons_elim {x : Char} {t : List Char} (ht : t ≠ [])
    (h : LastOk (x :: t)) : LastOk t := by
  unfold LastOk at h ⊢
  rw [List.reverse_cons] at h
  rwa [headOk_append_left [x] (by simpa using ht)] at h

theorem replaceAngle_append (a b : List Char) :
    replaceAngle (a ++ b) = replaceAngle a ++ replaceAngle b := by
  induction a with
  | nil => rfl
  | cons c cs ih => simp [replaceAngle, ih]

theorem headOk_replaceAngle {l : List Char} (h : HeadOk l) :
    HeadOk (replaceAngle l) := by
  cases l with
  | nil => trivial
  | cons c cs =>
    have hc : isPySpace c = false := h
    show HeadOk
      ((if c = '<' then ['&', 'l', 't', ';']
        else if c = '>' then ['&', 'g', 't', ';'] else [c]) ++ replaceAngle cs)
    by_cases h1 : c = '<'
    · rw [if_pos h1]
      rw [List.cons_append, headOk_cons]
      decide
    · by_cases h2 : c = '>'
      · rw [if_neg h1, if_pos h2]
        rw [List.cons_append, headOk_cons]
        decide
      · rw [if_neg h1, if_neg h2]
        rw [List.cons_append, headOk_cons]
        exact hc

theorem lastOk_replaceAngle {l : List Char} (h : LastOk l) :
    LastOk (replaceAngle l) := by
  induction l using List.reverseRecOn with
  | nil => trivial
  | append_singleton xs c ih =>
    rw [replaceAngle_append]
    have hc : isPySpace c = false := by
      unfold LastOk at h
      rw [List.reverse_append] at h
      exact h
    unfold LastOk
    rw [List.reverse_append]
    show HeadOk ((replaceAngle [c]).reverse ++ (replaceAngle xs).reverse)
    by_cases h1 : c = '<'
    · have himg : replaceAngle [c] = ['&', 'l', 't', ';'] := by
        simp [replaceAngle, h1]
      rw [himg]
      rw [(by decide : (['&', 'l', 't', ';'] : List Char).reverse = [';', 't', 'l', '&'])]
      rw [List.cons_append, headOk_cons]
      decide
    · by_cases h2 : c = '>'
      · have himg : replaceAngle [c] = ['&', 'g', 't', ';'] := by
          simp [replaceAngle, h1, h2]
        rw [himg]
        rw [(by decide : (['&', 'g', 't', ';'] : List Char).reverse = [';', 't', 'g', '&'])]
        rw [List.cons_append, headOk_cons]
        decide
      · have himg : replaceAngle [c] = [c] := by
          simp [replaceAngle, h1, h2]
        rw [himg, (by simp : ([c] : List Char).reverse = [c])]
        rw [List.cons_append, headOk_cons]
        exact hc

theorem collapseWS_nil : collapseWS [] = [] := by
  rw [collapseWS]

theorem collapseWS_cons (c : Char) (cs : List Char) :
    collapseWS (c :: cs) =
      if isPySpace c then ' ' :: collapseWS (cs.dropWhile isPySpace)
      else c :: collapseWS cs := by
  rw [collapseWS]

theorem collapseWS_ne_nil {m : List Char} (h : m ≠ []) : collapseWS m ≠ [] := by
  cases m with
  | nil => exact absurd rfl h
  | cons c cs =>
    rw [collapseWS_cons]
    split_ifs <;> simp

theorem headOk_collapseWS {m : List Char} (h : HeadOk m) :
    HeadOk (collapseWS m) := by
  cases m with
  | nil =>
    rw [collapseWS_nil]
    trivial
  | cons c cs =>
    have hc : isPySpace c = false := h
    rw [collapseWS_cons, if_neg (by simp [hc])]
    exact h

theorem collapseWS_idem (l : List Char) :
    collapseWS (collapseWS l) = collapseWS l := by
  have main : ∀ n (l : List Char), l.length = n →
      collapseWS (collapseWS l) = collapseWS l := by
    intro n
    induction n using Nat.strong_induction_on with
    | _ n ih =>
      intro l hl
      cases l with
      | nil => rw [collapseWS_nil, collapseWS_nil]
      | cons c cs =>
        by_cases hsp : isPySpace c
        · rw [collapseWS_cons, if_pos hsp]
          rw [collapseWS_cons, if_pos (by decide : isPySpace ' ' = true)]
          have h2 : HeadOk (collapseWS (cs.dropWhile isPySpace)) :=
            headOk_collapseWS (headOk_dropWhile cs)
          rw [dropWhile_eq_self_of_headOk h2]
          have hlen : (cs.dropWhile isPySpace).length < n := by
            rw [← hl]
            simp only [List.length_cons]
            exact Nat.lt_succ_of_le (List.dropWhile_sublist isPySpace).length_le
          rw [ih _ hlen _ rfl]
        · rw [collapseWS_cons, if_neg hsp, collapseWS_cons, if_neg hsp]
          have hlen : cs.length < n := by
            rw [← hl]
            simp
          rw [ih _ hlen _ rfl]
  exact main l.length l rfl

theorem lastOk_collapseWS {m : List Char} (h : LastOk m) :
    LastOk (collapseWS m) := by
  have main : ∀ n (m : List Char), m.length = n → LastOk m →
      LastOk (collapseWS m) := by
    intro n
    induction n using Nat.strong_induction_on with
    | _ n ih =>
      intro m hl hm
      cases m with
      | nil =>
        rw [collapseWS_nil]
        trivial
      | cons c cs =>
        by_cases hcs : cs = []
        · subst hcs
          have hc : isPySpace c = false := by
            unfold LastOk at hm
            rw [List.reverse_singleton] at hm
            exact hm
          rw [collapseWS_cons, if_neg (by simp [hc]), collapseWS_nil]
          unfold LastOk
          rw [List.reverse_singleton]
          exact hc
        · have hlt : LastOk cs := lastOk_cons_elim hcs hm
          by_cases hsp : isPySpace c
          · rw [collapseWS_cons, if_pos hsp]
            by_cases hm2 : cs.dropWhile isPySpace = []
            · exfalso
              have hall : ∀ x ∈ cs, isPySpace x = true :=
                List.dropWhile_eq_nil_iff.mp hm2
              unfold LastOk at hlt
              cases hrev : cs.reverse with
              | nil => exact hcs (by simpa using congrArg List.reverse hrev)
              | cons d ds =>
                rw [hrev] at hlt
                have hd : d ∈ cs := by
                  rw [← List.mem_reverse, hrev]
                  exact List.mem_cons_self d ds
                have hd2 : isPySpace d = false := hlt
                rw [hall d hd] at hd2
                cases hd2
            · have hsuf : LastOk (cs.dropWhile isPySpace) :=
                lastOk_of_suffix (dropWhile_suffix isPySpace cs) hlt
              have hlen : (cs.dropWhile isPySpace).length < n := by
                rw [← hl]
                simp only [List.length_cons]
                exact Nat.lt_succ_of_le (List.dropWhile_sublist isPySpace).length_le
              exact lastOk_cons (collapseWS_ne_nil hm2) (ih _ hlen _ rfl hsuf)
          · rw [collapseWS_cons, if_neg hsp]
            have hlen : cs.length < n := by
              rw [← hl]
              simp
            exact lastOk_cons (collapseWS_ne_nil hcs) (ih _ hlen _ rfl hlt)
  exact main m.length m rfl h

theorem noAngle_replaceAngle (l : List Char) : NoAngle (replaceAngle l) := by
  induction l with
  | nil => intro c hc; cases hc
  | cons c cs ih =>
    intro d hd
    simp only [replaceAngle] at hd
    rcases List.mem_append.mp hd with hmem | hmem
    · by_cases h1 : c = '<'
      · rw [if_pos h1] at hmem
        simp only [List.mem_cons, List.mem_singleton] at hmem
        rcases hmem with rfl | rfl | rfl | hmem
        · decide
        · decide
        · decide
        · rcases hmem with rfl | h0
          · decide
          · cases h0
      · by_cases h2 : c = '>'
        · rw [if_neg h1, if_pos h2] at hmem
          simp only [List.mem_cons, List.mem_singleton] at hmem
          rcases hmem with rfl | rfl | rfl | hmem
          · decide
          · decide
          · decide
          · rcases hmem with rfl | h0
            · decide
            · cases h0
        · rw [if_neg h1, if_neg h2] at hmem
          rcases List.mem_singleton.mp hmem with rfl
          exact fun hor => hor.elim h1 h2
    · exact ih d hmem

theorem replaceAngle_eq_self_of_noAngle {l : List Char} (h : NoAngle l) :
    replaceAngle l = l := by
  induction l with
  | nil => rfl
  | cons c cs ih =>
    have hc := h c (List.mem_cons_self c cs)
    have h1 : c ≠ '<' := fun he => hc (Or.inl he)
    have h2 : c ≠ '>' := fun he => hc (Or.inr he)
    have hcs : NoAngle cs := fun d hd => h d (List.mem_cons_of_mem c hd)
    simp [replaceAngle, h1, h2, ih hcs]

theorem noAngle_collapseWS {m : List Char} (h : NoAngle m) :
    NoAngle (collapseWS m) := by
  have main : ∀ n (m : List Char), m.length = n → NoAngle m →
      NoAngle (collapseWS m) := by
    intro n
    induction n using Nat.strong_induction_on with
    | _ n ih =>
      intro m hl hm
      cases m with
      | nil =>
        rw [collapseWS_nil]
        intro c hc
        cases hc
      | cons c cs =>
        by_cases hsp : isPySpace c
        · rw [collapseWS_cons, if_pos hsp]
          intro d hd
          rcases List.mem_cons.mp hd with rfl | hmem
          · decide
          · have hlen : (cs.dropWhile isPySpace).length < n := by
              rw [← hl]
              simp only [List.length_cons]
              exact Nat.lt_succ_of_le (List.dropWhile_sublist isPySpace).length_le
            have hsub : NoAngle (cs.dropWhile isPySpace) := fun e he =>
              hm e (List.mem_cons_of_mem c ((List.dropWhile_sublist isPySpace).mem he))
            exact ih _ hlen _ rfl hsub d hmem
        · rw [collapseWS_cons, if_neg hsp]
          intro d hd
          rcases List.mem_cons.mp hd with rfl | hmem
          · exact hm d (List.mem_cons_self d cs)
          · have hlen : cs.length < n := by
              rw [← hl]
              simp
            have hsub : NoAngle cs := fun e he => hm e (List.mem_cons_of_mem c he)
            exact ih _ hlen _ rfl hsub d hmem
  exact main m.length m rfl h

theorem pyStrip_eq_self_of_ends {t : List Char} (h1 : HeadOk t) (h2 : LastOk t) :
    pyStrip t = t := by
  unfold pyStrip
  rw [dropWhile_eq_self_of_headOk h1]
  rw [dropWhile_eq_self_of_headOk (h2 : HeadOk t.reverse)]
  exact List.reverse_reverse t

/-- C9: sanitize_message is idempotent. -/
theorem sanitize_message_idempotent (x : String) :
    sanitizeMessage (sanitizeMessage x) = sanitizeMessage x := by
  show (⟨collapseWS (replaceAngle (pyStrip
      (collapseWS (replaceAngle (pyStrip x.toList)))))⟩ : String) =
    ⟨collapseWS (replaceAngle (pyStrip x.toList))⟩
  congr 1
  have h3 : HeadOk (replaceAngle (pyStrip x.toList)) :=
    headOk_replaceAngle (pyStrip_headOk x.toList)
  have h4 : LastOk (replaceAngle (pyStrip x.toList)) :=
    lastOk_replaceAngle (pyStrip_lastOk x.toList)
  have h5 : HeadOk (collapseWS (replaceAngle (pyStrip x.toList))) :=
    headOk_collapseWS h3
  have h6 : LastOk (collapseWS (replaceAngle (pyStrip x.toList))) :=
    lastOk_collapseWS h4
  have h7 : NoAngle (collapseWS (replaceAngle (pyStrip x.toList))) :=
    noAngle_collapseWS (noAngle_replaceAngle _)
  rw [pyStrip_eq_self_of_ends h5 h6]
  rw [replaceAngle_eq_self_of_noAngle h7]
  exact collapseWS_idem _

end MariChat
